import Mathlib

/-!
Verification of the policy-fetcher core: a shallow embedding of
`src/lib.rs` (URI classification, destination resolution, reuse-vs-refetch
policy) and `src/registry/config.rs` (Docker-style credential parsing and
the credential-helper protocol), together with theorems settling the
specification claims.

Bytes are modelled as `Nat` values (< 256 where it matters), byte vectors
as `List Nat`, filesystem paths as `String`s with `/` separators, and the
ambient filesystem / subprocess environment as explicit parameters.
-/

namespace PolicyFetcher

/-! ### Splitting on a separator

Models Rust `str::split(c)` / `slice::split(|x| *x == c)`: the list of
(possibly empty) chunks between occurrences of the separator. The result
is always non-empty. -/

def splitOnElem {α : Type} [DecidableEq α] (c : α) : List α → List (List α)
  | [] => [[]]
  | x :: xs =>
    let r := splitOnElem c xs
    if x = c then [] :: r else (x :: r.headI) :: r.tail

theorem splitOnElem_nil {α : Type} [DecidableEq α] (c : α) :
    splitOnElem c ([] : List α) = [[]] := rfl

theorem splitOnElem_cons {α : Type} [DecidableEq α] (c x : α) (xs : List α) :
    splitOnElem c (x :: xs) =
      if x = c then [] :: splitOnElem c xs
      else (x :: (splitOnElem c xs).headI) :: (splitOnElem c xs).tail := rfl

theorem splitOnElem_ne_nil {α : Type} [DecidableEq α] (c : α) (l : List α) :
    splitOnElem c l ≠ [] := by
  cases l with
  | nil => simp [splitOnElem_nil]
  | cons x xs =>
    rw [splitOnElem_cons]
    split
    · simp
    · simp

theorem splitOnElem_of_not_mem {α : Type} [DecidableEq α] {c : α} {l : List α}
    (h : c ∉ l) : splitOnElem c l = [l] := by
  induction l with
  | nil => rfl
  | cons x xs ih =>
    have hx : x ≠ c := fun he => h (he ▸ List.mem_cons_self x xs)
    have hxs : c ∉ xs := fun hm => h (List.mem_cons_of_mem x hm)
    rw [splitOnElem_cons, if_neg hx, ih hxs]
    simp

theorem splitOnElem_append_cons {α : Type} [DecidableEq α] (c : α) (u v : List α)
    (hu : c ∉ u) : splitOnElem c (u ++ c :: v) = u :: splitOnElem c v := by
  induction u with
  | nil =>
    rw [List.nil_append, splitOnElem_cons, if_pos rfl]
  | cons x xs ih =>
    have hx : x ≠ c := fun he => hu (he ▸ List.mem_cons_self x xs)
    have hxs : c ∉ xs := fun hm => hu (List.mem_cons_of_mem x hm)
    rw [List.cons_append, splitOnElem_cons, if_neg hx, ih hxs]
    simp

theorem splitOnElem_pair {α : Type} [DecidableEq α] (c : α) (u v : List α)
    (hu : c ∉ u) (hv : c ∉ v) : splitOnElem c (u ++ c :: v) = [u, v] := by
  rw [splitOnElem_append_cons c u v hu, splitOnElem_of_not_mem hv]

theorem splitOnElem_eq_single {α : Type} [DecidableEq α] {c : α} {l w : List α}
    (h : splitOnElem c l = [w]) : l = w ∧ c ∉ w := by
  induction l generalizing w with
  | nil =>
    rw [splitOnElem_nil] at h
    cases h
    exact ⟨rfl, by simp⟩
  | cons x xs ih =>
    rw [splitOnElem_cons] at h
    by_cases hx : x = c
    · rw [if_pos hx] at h
      have : splitOnElem c xs = [] := by
        have := congrArg List.tail h
        simpa using this
      exact absurd this (splitOnElem_ne_nil c xs)
    · rw [if_neg hx] at h
      have hw : w = x :: (splitOnElem c xs).headI := by
        simpa using (congrArg List.headI h).symm
      have htl : (splitOnElem c xs).tail = [] := by
        simpa using congrArg List.tail h
      have hsx : splitOnElem c xs = [(splitOnElem c xs).headI] := by
        rcases he : splitOnElem c xs with _ | ⟨y, ys⟩
        · exact absurd he (splitOnElem_ne_nil c xs)
        · rw [he] at htl
          simp only [List.tail_cons] at htl
          rw [htl]
          simp
      obtain ⟨hxs2, hcy⟩ := ih hsx
      refine ⟨by rw [hw, ← hxs2], ?_⟩
      rw [hw]
      simp only [List.mem_cons, not_or]
      exact ⟨fun he => hx he.symm, hcy⟩

theorem splitOnElem_eq_pair {α : Type} [DecidableEq α] {c : α} {l u v : List α}
    (h : splitOnElem c l = [u, v]) : l = u ++ c :: v ∧ c ∉ u ∧ c ∉ v := by
  induction l generalizing u with
  | nil =>
    rw [splitOnElem_nil] at h
    simp at h
  | cons x xs ih =>
    rw [splitOnElem_cons] at h
    by_cases hx : x = c
    · rw [if_pos hx] at h
      have hu : u = [] := by simpa using congrArg List.headI h
      have htl : splitOnElem c xs = [v] := by simpa using congrArg List.tail h
      obtain ⟨hxv, hcv⟩ := splitOnElem_eq_single htl
      subst hu hxv hx
      exact ⟨rfl, by simp, hcv⟩
    · rw [if_neg hx] at h
      have hu : u = x :: (splitOnElem c xs).headI := by
        simpa using (congrArg List.headI h).symm
      have htl : (splitOnElem c xs).tail = [v] := by
        simpa using congrArg List.tail h
      have hxs2 : splitOnElem c xs = [(splitOnElem c xs).headI, v] := by
        rcases he : splitOnElem c xs with _ | ⟨y, ys⟩
        · exact absurd he (splitOnElem_ne_nil c xs)
        · rw [he] at htl
          simp only [List.tail_cons] at htl
          rw [htl]
          simp
      obtain ⟨hl, hcy, hcv⟩ := ih hxs2
      refine ⟨?_, ?_, hcv⟩
      · rw [hu, List.cons_append, ← hl]
      · rw [hu]
        simp only [List.mem_cons, not_or]
        exact ⟨fun he => hx he.symm, hcy⟩

theorem two_le_splitOnElem_append {α : Type} [DecidableEq α] (c : α) (l m : List α) :
    2 ≤ (splitOnElem c (l ++ c :: m)).length := by
  induction l with
  | nil =>
    rw [List.nil_append, splitOnElem_cons, if_pos rfl]
    have := splitOnElem_ne_nil c m
    rcases he : splitOnElem c m with _ | ⟨y, ys⟩
    · exact absurd he this
    · simp
  | cons x xs ih =>
    rw [List.cons_append, splitOnElem_cons]
    rcases he : splitOnElem c (xs ++ c :: m) with _ | ⟨y, ys⟩
    · exact absurd he (splitOnElem_ne_nil c _)
    · rw [he] at ih
      split
      · simp only [List.length_cons] at ih ⊢
        omega
      · simp only [List.tail_cons, List.length_cons] at ih ⊢
        omega

theorem getLast?_splitOnElem_append {α : Type} [DecidableEq α] (c : α) (l m : List α) :
    (splitOnElem c (l ++ c :: m)).getLast? = (splitOnElem c m).getLast? := by
  induction l with
  | nil =>
    rw [List.nil_append, splitOnElem_cons, if_pos rfl]
    rcases he : splitOnElem c m with _ | ⟨y, ys⟩
    · exact absurd he (splitOnElem_ne_nil c m)
    · rw [List.getLast?_cons_cons]
  | cons x xs ih =>
    rw [List.cons_append, splitOnElem_cons]
    rcases he : splitOnElem c (xs ++ c :: m) with _ | ⟨y, ys⟩
    · exact absurd he (splitOnElem_ne_nil c _)
    · have hys : ys ≠ [] := by
        have h2 := two_le_splitOnElem_append c xs m
        rw [he] at h2
        cases ys with
        | nil => simp at h2
        | cons a as => simp
      rw [he] at ih
      split
      · rw [List.getLast?_cons_cons, ih]
      · rcases ys with _ | ⟨a, as⟩
        · exact absurd rfl hys
        · simp only [List.headI, List.tail_cons]
          rw [List.getLast?_cons_cons, ← ih, List.getLast?_cons_cons]

theorem getLast?_splitOnElem_no_sep {α : Type} [DecidableEq α] {c : α} {m : List α}
    (h : c ∉ m) : (splitOnElem c m).getLast? = some m := by
  rw [splitOnElem_of_not_mem h]
  rfl

theorem getLast?_splitOnElem_tag {α : Type} [DecidableEq α] (c : α) (l m : List α)
    (h : c ∉ m) : (splitOnElem c (l ++ c :: m)).getLast? = some m := by
  rw [getLast?_splitOnElem_append, getLast?_splitOnElem_no_sep h]

/-! ### Base64 (standard alphabet, padded)

Models the external `base64` crate as used by `config.rs`
(`base64::decode` / standard encoding). Bytes are `Nat`s below 256.
The decoder accepts canonically padded input, rejecting stray `=`
and non-zero trailing bits, as the crate's default config does. -/

def b64Char (n : Nat) : Char :=
  if n < 26 then Char.ofNat (65 + n)
  else if n < 52 then Char.ofNat (97 + (n - 26))
  else if n < 62 then Char.ofNat (48 + (n - 52))
  else if n = 62 then '+'
  else '/'

def b64Val (c : Char) : Option Nat :=
  if 'A' ≤ c ∧ c ≤ 'Z' then some (c.toNat - 65)
  else if 'a' ≤ c ∧ c ≤ 'z' then some (c.toNat - 97 + 26)
  else if '0' ≤ c ∧ c ≤ '9' then some (c.toNat - 48 + 52)
  else if c = '+' then some 62
  else if c = '/' then some 63
  else none

theorem b64Val_b64Char : ∀ n < 64, b64Val (b64Char n) = some n := by decide

theorem b64Char_ne_pad : ∀ n < 64, b64Char n ≠ '=' := by decide

def b64EncodeChars : List Nat → List Char
  | [] => []
  | [a] => [b64Char (a / 4), b64Char (a % 4 * 16), '=', '=']
  | [a, b] => [b64Char (a / 4), b64Char (a % 4 * 16 + b / 16), b64Char (b % 16 * 4), '=']
  | a :: b :: c :: rest =>
      b64Char (a / 4) :: b64Char (a % 4 * 16 + b / 16) ::
      b64Char (b % 16 * 4 + c / 64) :: b64Char (c % 64) :: b64EncodeChars rest

def b64DecodeChars : List Char → Option (List Nat)
  | [] => some []
  | c1 :: c2 :: c3 :: c4 :: rest =>
    if c3 = '=' ∧ c4 = '=' ∧ rest = [] then
      (b64Val c1).bind fun w => (b64Val c2).bind fun x =>
        if x % 16 = 0 then some [w * 4 + x / 16] else none
    else if c4 = '=' ∧ rest = [] then
      (b64Val c1).bind fun w => (b64Val c2).bind fun x => (b64Val c3).bind fun y =>
        if y % 4 = 0 then some [w * 4 + x / 16, x % 16 * 16 + y / 4] else none
    else
      (b64Val c1).bind fun w => (b64Val c2).bind fun x =>
        (b64Val c3).bind fun y => (b64Val c4).bind fun z =>
          (b64DecodeChars rest).map
            (fun r => (w * 4 + x / 16) :: (x % 16 * 16 + y / 4) :: (y % 4 * 64 + z) :: r)
  | _ => none

def b64Encode (bs : List Nat) : String := String.mk (b64EncodeChars bs)

def b64Decode (s : String) : Option (List Nat) := b64DecodeChars s.data

theorem b64_roundtrip_chars (bs : List Nat) (h : ∀ b ∈ bs, b < 256) :
    b64DecodeChars (b64EncodeChars bs) = some bs := by
  induction bs using b64EncodeChars.induct with
  | case1 => rfl
  | case2 a =>
    have ha : a < 256 := h a (by simp)
    have h1 : a / 4 < 64 := by omega
    have h2 : a % 4 * 16 < 64 := by omega
    rw [b64EncodeChars, b64DecodeChars, if_pos ⟨rfl, rfl, rfl⟩,
        b64Val_b64Char _ h1, b64Val_b64Char _ h2]
    simp only [Option.some_bind]
    rw [if_pos (by omega)]
    congr 2
    omega
  | case3 a b =>
    have ha : a < 256 := h a (by simp)
    have hb : b < 256 := h b (by simp)
    have h1 : a / 4 < 64 := by omega
    have h2 : a % 4 * 16 + b / 16 < 64 := by omega
    have h3 : b % 16 * 4 < 64 := by omega
    have hne1 : ¬(b64Char (b % 16 * 4) = '=' ∧ ('=' : Char) = '=' ∧ ([] : List Char) = []) :=
      fun hq => b64Char_ne_pad _ h3 hq.1
    rw [b64EncodeChars, b64DecodeChars, if_neg hne1, if_pos ⟨rfl, rfl⟩,
        b64Val_b64Char _ h1, b64Val_b64Char _ h2, b64Val_b64Char _ h3]
    simp only [Option.some_bind]
    rw [if_pos (by omega)]
    have e1 : a / 4 * 4 + (a % 4 * 16 + b / 16) / 16 = a := by omega
    have e2 : (a % 4 * 16 + b / 16) % 16 * 16 + b % 16 * 4 / 4 = b := by omega
    rw [e1, e2]
  | case4 a b c rest ih =>
    have ha : a < 256 := h a (by simp)
    have hb : b < 256 := h b (by simp)
    have hc : c < 256 := h c (by simp)
    have h1 : a / 4 < 64 := by omega
    have h2 : a % 4 * 16 + b / 16 < 64 := by omega
    have h3 : b % 16 * 4 + c / 64 < 64 := by omega
    have h4 : c % 64 < 64 := by omega
    have hne1 : ¬(b64Char (b % 16 * 4 + c / 64) = '=' ∧ b64Char (c % 64) = '=' ∧
        b64EncodeChars rest = []) := fun hq => b64Char_ne_pad _ h3 hq.1
    have hne2 : ¬(b64Char (c % 64) = '=' ∧ b64EncodeChars rest = []) :=
      fun hq => b64Char_ne_pad _ h4 hq.1
    rw [b64EncodeChars, b64DecodeChars, if_neg hne1, if_neg hne2,
        b64Val_b64Char _ h1, b64Val_b64Char _ h2, b64Val_b64Char _ h3, b64Val_b64Char _ h4]
    simp only [Option.some_bind]
    rw [ih (fun x hx => h x (by simp [hx]))]
    simp only [Option.map_some']
    have e1 : a / 4 * 4 + (a % 4 * 16 + b / 16) / 16 = a := by omega
    have e2 : (a % 4 * 16 + b / 16) % 16 * 16 + (b % 16 * 4 + c / 64) / 4 = b := by omega
    have e3 : (b % 16 * 4 + c / 64) % 4 * 64 + c % 64 = c := by omega
    rw [e1, e2, e3]

theorem b64_roundtrip (bs : List Nat) (h : ∀ b ∈ bs, b < 256) :
    b64Decode (b64Encode bs) = some bs := b64_roundtrip_chars bs h

/-! ### Decimal digits

`Nat.repr` renders a port as decimal digits; no digit is a `:`, which
the registry tag computation below relies on. -/

theorem digitChar_big (m : Nat) (h : 16 ≤ m) : Nat.digitChar m = '*' := by
  unfold Nat.digitChar
  repeat rw [if_neg (by omega)]

theorem digitChar_ne_colon (m : Nat) : Nat.digitChar m ≠ ':' := by
  by_cases h : m < 16
  · have hall : ∀ k < 16, Nat.digitChar k ≠ ':' := by decide
    exact hall m h
  · rw [digitChar_big m (by omega)]
    decide

theorem toDigitsCore_no_colon (b fuel : Nat) :
    ∀ (n : Nat) (ds : List Char), ':' ∉ ds → ':' ∉ Nat.toDigitsCore b fuel n ds := by
  induction fuel with
  | zero => intro n ds h; simpa [Nat.toDigitsCore] using h
  | succ fuel ih =>
    intro n ds h
    unfold Nat.toDigitsCore
    dsimp only
    have hcons : ':' ∉ (n % b).digitChar :: ds := by
      simp only [List.mem_cons, not_or]
      exact ⟨fun hc => digitChar_ne_colon _ hc.symm, h⟩
    split_ifs
    · exact hcons
    · exact ih _ _ hcons

theorem natRepr_no_colon (n : Nat) : ':' ∉ (Nat.repr n).data := by
  show ':' ∉ (Nat.toDigits 10 n).asString.data
  have hs : (Nat.toDigits 10 n).asString.data = Nat.toDigits 10 n := rfl
  rw [hs]
  exact toDigitsCore_no_colon 10 (n + 1) n [] (by simp)

/-! ### Parsed URLs

The `url` crate is external; a parsed `Url` is modelled at its interface:
scheme, optional host, optional explicit port, and the path component
(which for http/https/registry URLs begins with `/` and, for registry
URLs, keeps any `:tag` suffix). `asStr` is the serialization returned by
`Url::as_str`. -/

structure Url where
  scheme : String
  host : Option String
  port : Option Nat
  path : String
deriving DecidableEq

def Url.hostStr (u : Url) : String :=
  match u.host with
  | some h => h
  | none => ""

def Url.portStr (u : Url) : String :=
  match u.port with
  | some p => ":" ++ Nat.repr p
  | none => ""

def Url.asStr (u : Url) : String := u.scheme ++ "://" ++ u.hostStr ++ u.portStr ++ u.path

/-- Models `Url::to_file_path` at its interface: succeeds for an empty or
`localhost` host, yielding the URL's path, and fails otherwise. -/
def Url.toFilePath (u : Url) : Except String String :=
  match u.host with
  | none => .ok u.path
  | some "" => .ok u.path
  | some "localhost" => .ok u.path
  | some _ => .error ("cannot retrieve path from uri " ++ u.asStr)

/-- Embeds `host_and_port` (`src/lib.rs:116`): `<host>` followed by
`:<port>` only when a port is explicitly present; error when the URL has
no host. -/
def host_and_port (url : Url) : Except String String :=
  match url.host with
  | none => .error ("invalid URL " ++ url.asStr)
  | some h => .ok (h ++ url.portStr)

/-! ### The content store

`src/store.rs` is not among the sources (only its callers in
`src/lib.rs` are), so `Store` is modelled from the spec, section 4.3. -/

inductive PolicyPath where
  | PrefixOnly
  | PrefixAndFilename
deriving DecidableEq

structure Store where
  root : String
deriving DecidableEq

def stripLeadingSlash (s : String) : String :=
  match s.data with
  | x :: rest => if x = '/' then String.mk rest else s
  | [] => s

def dropLastSegment (s : String) : String :=
  String.intercalate "/" (((splitOnElem '/' s.data).dropLast).map String.mk)

/-- Modelled from the spec: `Store::policy_full_path` is defined in
`src/store.rs`, which is missing from the sources. Spec 4.3: the mapping
is `root / <scheme> / <host>[:<port>] / <uri-path-without-leading-slash>`,
the scheme verbatim, host:port as in the parsed URI with the port only
when explicitly present, and `PrefixOnly` removing the final `/`-separated
segment. The source function receives the URL serialized as a string; the
model receives the parsed URL. Host/port formatting is `host_and_port`
from `src/lib.rs`. -/
def Store.policy_full_path (s : Store) (url : Url) (mode : PolicyPath) :
    Except String String :=
  match host_and_port url with
  | .error e => .error e
  | .ok hp =>
    let full := s.root ++ "/" ++ url.scheme ++ "/" ++ hp ++ "/" ++ stripLeadingSlash url.path
    match mode with
    | .PrefixAndFilename => .ok full
    | .PrefixOnly => .ok (dropLastSegment full)

/-! ### Destination resolution (`src/lib.rs`)

The filesystem is an explicit read-only environment: which paths are
existing directories and which paths exist as files. Paths are `String`s;
`joinPath` models `PathBuf::join` with a relative component. -/

structure FileSystem where
  isDir : String → Bool
  fileExists : String → Bool

def joinPath (p s : String) : String := p ++ "/" ++ s

inductive PullDestination where
  | MainStore
  | Store (root : String)
  | LocalFile (path : String)
deriving DecidableEq

/-- Embeds `pull_destination` (`src/lib.rs:80`). The default store root
(an OS-dependent directory chosen by `Store::default`) is passed
explicitly. The `unwrap` on `url.path().split('/').last()` is modelled as
an error value, so a panic would be observable. -/
def pull_destination (defaultRoot : String) (fs : FileSystem) (url : Url)
    (destination : PullDestination) : Except String (Option Store × String) :=
  match destination with
  | .MainStore =>
    let store : Store := ⟨defaultRoot⟩
    match store.policy_full_path url .PrefixAndFilename with
    | .error e => .error e
    | .ok policy_path => .ok (some store, policy_path)
  | .Store root =>
    let store : Store := ⟨root⟩
    match store.policy_full_path url .PrefixAndFilename with
    | .error e => .error e
    | .ok policy_path => .ok (some store, policy_path)
  | .LocalFile dest =>
    if fs.isDir dest then
      match (splitOnElem '/' url.path.data).getLast? with
      | some filename => .ok (none, joinPath dest (String.mk filename))
      | none => .error "panicked: called Option::unwrap on a None value"
    else
      .ok (none, dest)

/-! ### Fetcher dispatch and the orchestrator (`src/lib.rs`) -/

inductive FetcherKind where
  | Local
  | Https
  | Registry
deriving DecidableEq

/-- Embeds `url_fetcher` (`src/lib.rs:107`): scheme-to-fetcher selection. -/
def url_fetcher (scheme : String) : Except String FetcherKind :=
  if scheme = "file" then .ok .Local
  else if scheme = "http" ∨ scheme = "https" then .ok .Https
  else if scheme = "registry" then .ok .Registry
  else .error ("unknown scheme: " ++ scheme)

/-- Observable outcome of one `fetch_policy` call: the returned value,
whether the dispatched fetcher was invoked, and which prefix directory
was ensured in the store (if any). -/
structure FetchOutcome where
  result : Except String String
  fetched : Bool
  ensured : Option String

/-- Embeds `fetch_policy` after scheme classification
(`src/lib.rs:53-77`): resolve the destination, ensure the store prefix
directory, apply the reuse policy, and otherwise dispatch the fetcher.
The dispatched fetcher's own outcome is external and passed in as
`fetchResult`. -/
def fetch_policy_after_resolve (fs : FileSystem) (fetchResult : Except String Unit)
    (url : Url) (store : Option Store) (dest : String) : FetchOutcome :=
  let ensureStep : Except String (Option String) :=
    match store with
    | some st =>
      match st.policy_full_path url .PrefixOnly with
      | .error e => .error e
      | .ok p => .ok (some p)
    | none => .ok none
  match ensureStep with
  | .error e => { result := .error e, fetched := false, ensured := none }
  | .ok ens =>
    let reuse : Bool :=
      if url.scheme = "registry" then
        decide ((splitOnElem ':' url.asStr.data).getLast? ≠ some "latest".data)
          && fs.fileExists dest
      else
        fs.fileExists dest
    if reuse then { result := .ok dest, fetched := false, ensured := ens }
    else
      match url_fetcher url.scheme with
      | .error e => { result := .error e, fetched := false, ensured := ens }
      | .ok _ =>
        match fetchResult with
        | .error e => { result := .error e, fetched := true, ensured := ens }
        | .ok _ => { result := .ok dest, fetched := true, ensured := ens }

def fetch_policy_resolved (defaultRoot : String) (fs : FileSystem)
    (fetchResult : Except String Unit) (url : Url) (destination : PullDestination) :
    FetchOutcome :=
  match pull_destination defaultRoot fs url destination with
  | .error e => { result := .error e, fetched := false, ensured := none }
  | .ok (store, dest) => fetch_policy_after_resolve fs fetchResult url store dest

/-- Embeds `fetch_policy` (`src/lib.rs:36`): classify the scheme —
`file` converts the URL to a filesystem path and returns at once,
`http`/`https`/`registry` proceed to destination resolution, anything
else is an unknown-scheme error. -/
def fetch_policy (defaultRoot : String) (fs : FileSystem)
    (fetchResult : Except String Unit) (url : Url) (destination : PullDestination) :
    FetchOutcome :=
  if url.scheme = "file" then
    { result := url.toFilePath, fetched := false, ensured := none }
  else if url.scheme = "http" ∨ url.scheme = "https" ∨ url.scheme = "registry" then
    fetch_policy_resolved defaultRoot fs fetchResult url destination
  else
    { result := .error ("unknown scheme: " ++ url.scheme), fetched := false, ensured := none }

/-! ### Docker credential configuration (`src/registry/config.rs`)

`HashMap`s are modelled as association lists; decoded credentials are
byte vectors (`List Nat`). The `:` byte is 58. -/

structure RegistryAuthRaw where
  auth : Option String
deriving DecidableEq

structure DockerConfigRaw where
  auths : Option (List (String × RegistryAuthRaw))
  creds_store : Option String
deriving DecidableEq

inductive RegistryAuth where
  | BasicAuth (username password : List Nat)
deriving DecidableEq

structure DockerConfig where
  auths : List (String × RegistryAuth)
  creds_store : Option String
deriving DecidableEq

/-- Embeds `TryFrom<RegistryAuthRaw> for OptionalRegistryAuth`
(`src/registry/config.rs:132`): absent `auth` is `Ok(None)`; present
`auth` is base64-decoded and split on every `:` byte, demanding exactly
two chunks. -/
def tryFromRegistryAuthRaw (raw : RegistryAuthRaw) : Except String (Option RegistryAuth) :=
  match raw.auth with
  | some a =>
    match b64Decode a with
    | some basic_auth =>
      match splitOnElem 58 basic_auth with
      | [username, password] => .ok (some (.BasicAuth username password))
      | _ => .error "basic auth not in the form username:password"
    | none => .error "invalid base64 encoding"
  | none => .ok none

/-- Embeds `TryFrom<DockerConfigRaw> for DockerConfig`
(`src/registry/config.rs:102`): per-entry validation with `filter_map`,
dropping (never propagating) entries that fail, always returning `Ok`. -/
def tryFromDockerConfigRaw (docker_config : DockerConfigRaw) : Except String DockerConfig :=
  let auths := match docker_config.auths with
    | some auths =>
      auths.filterMap (fun entry =>
        match tryFromRegistryAuthRaw entry.2 with
        | .ok registry_auth => registry_auth.map (fun ra => (entry.1, ra))
        | .error _ => none)
    | none => []
  .ok { auths := auths, creds_store := docker_config.creds_store }

/-- Models Rust `s.strip_prefix(p).unwrap_or(s)` on the image URL, for
the literal `registry://` (11 characters). -/
def stripRegistryScheme (s : String) : String :=
  if s.data.take 11 = "registry://".data then String.mk (s.data.drop 11) else s

/-- An OCI image reference at the interface this code consumes: only its
registry-host component is inspected. -/
structure OciReference where
  registry : String
deriving DecidableEq

/-- Embeds `DockerConfig::auth` (`src/registry/config.rs:59`). Parsing an
image reference (`oci_distribution::Reference::from_str`) is an external
crate, passed in as `parseReference`. -/
def DockerConfig.auth (parseReference : String → Except String OciReference)
    (config : DockerConfig) (image_url : String) : Except String (Option RegistryAuth) :=
  match parseReference (stripRegistryScheme image_url) with
  | .error e => .error e
  | .ok reference =>
    .ok ((config.auths.find? (fun e => e.1 = reference.registry)).map (fun e => e.2))

/-! ### Credential-helper subprocess (`src/registry/config.rs:76`)

The OS process spawn, UTF-8 decoding of its output, and the serde JSON
parse of the response are external effects, passed in as capabilities. -/

structure ProcOutput where
  success : Bool
  stdout : List Nat
deriving DecidableEq

structure CredentialsHelperResponse where
  username : String
  secret : String
deriving DecidableEq

def strBytes (s : String) : List Nat :=
  (s.data.flatMap String.utf8EncodeChar).map (fun b => b.toNat)

/-- Embeds `get_auth_from_credentials_helper`: spawn
`docker-credential-<creds_store>` with argument `get` and the registry
host on its input stream (`spawn prog arg input`); a non-zero exit is an
error carrying the output decoded as text (`unwrap_or_default`); a zero
exit has its output parsed for `Username`/`Secret`, parse failure being
an error, success a `BasicAuth` over the two fields' bytes. -/
def get_auth_from_credentials_helper
    (spawn : String → String → String → Option ProcOutput)
    (fromUtf8 : List Nat → Option String)
    (parseResponse : List Nat → Option CredentialsHelperResponse)
    (creds_store registry : String) : Except String RegistryAuth :=
  match spawn ("docker-credential-" ++ creds_store) "get" registry with
  | none => .error "failed to spawn credentials helper"
  | some res =>
    if res.success then
      match parseResponse res.stdout with
      | none => .error "malformed credentials helper response"
      | some response =>
        .ok (.BasicAuth (strBytes response.username) (strBytes response.secret))
    else
      .error ("Error retrieving credentials from credential store: "
        ++ ((fromUtf8 res.stdout).getD ""))

/-! ### Helper lemmas about the destination resolver -/

theorem policy_full_path_modes (st : Store) (url : Url) (p : String)
    (h : st.policy_full_path url .PrefixAndFilename = .ok p) :
    st.policy_full_path url .PrefixOnly = .ok (dropLastSegment p) := by
  unfold Store.policy_full_path at h ⊢
  rcases he : host_and_port url with e | hp
  · rw [he] at h
    exact absurd h (by simp)
  · rw [he] at h
    simp only [Except.ok.injEq] at h
    rw [← h]

theorem pull_destination_store_parent (defaultRoot : String) (fs : FileSystem) (url : Url)
    (destination : PullDestination) (st : Store) (dest : String)
    (h : pull_destination defaultRoot fs url destination = .ok (some st, dest)) :
    st.policy_full_path url .PrefixOnly = .ok (dropLastSegment dest) := by
  cases destination with
  | MainStore =>
    simp only [pull_destination] at h
    rcases he : Store.policy_full_path ⟨defaultRoot⟩ url .PrefixAndFilename with e | p
    · rw [he] at h
      exact absurd h (by simp)
    · rw [he] at h
      simp only [Except.ok.injEq, Prod.mk.injEq, Option.some.injEq] at h
      obtain ⟨h1, h2⟩ := h
      subst h1 h2
      exact policy_full_path_modes _ url _ he
  | Store root =>
    simp only [pull_destination] at h
    rcases he : Store.policy_full_path ⟨root⟩ url .PrefixAndFilename with e | p
    · rw [he] at h
      exact absurd h (by simp)
    · rw [he] at h
      simp only [Except.ok.injEq, Prod.mk.injEq, Option.some.injEq] at h
      obtain ⟨h1, h2⟩ := h
      subst h1 h2
      exact policy_full_path_modes _ url _ he
  | LocalFile p =>
    simp only [pull_destination] at h
    by_cases hd : fs.isDir p = true
    · rw [if_pos hd] at h
      rcases hg : (splitOnElem '/' url.path.data).getLast? with _ | seg
      · rw [hg] at h
        exact absurd h (by simp)
      · rw [hg] at h
        simp at h
    · rw [if_neg hd] at h
      simp at h

theorem fetch_policy_proceeds (defaultRoot : String) (fs : FileSystem)
    (fetchResult : Except String Unit) (url : Url) (destination : PullDestination)
    (hs : url.scheme = "http" ∨ url.scheme = "https" ∨ url.scheme = "registry") :
    fetch_policy defaultRoot fs fetchResult url destination =
      fetch_policy_resolved defaultRoot fs fetchResult url destination := by
  unfold fetch_policy
  have hnf : ¬(url.scheme = "file") := by
    rcases hs with h | h | h <;> rw [h] <;> decide
  rw [if_neg hnf, if_pos hs]

theorem fetch_policy_resolved_eq (defaultRoot : String) (fs : FileSystem)
    (fetchResult : Except String Unit) (url : Url) (destination : PullDestination)
    (store : Option Store) (dest : String)
    (hpd : pull_destination defaultRoot fs url destination = .ok (store, dest)) :
    fetch_policy_resolved defaultRoot fs fetchResult url destination =
      fetch_policy_after_resolve fs fetchResult url store dest := by
  unfold fetch_policy_resolved
  rw [hpd]

theorem after_resolve_eval (defaultRoot : String) (fs : FileSystem)
    (fetchResult : Except String Unit) (url : Url) (destination : PullDestination)
    (store : Option Store) (dest : String)
    (hpd : pull_destination defaultRoot fs url destination = .ok (store, dest)) :
    ((if url.scheme = "registry" then
        decide ((splitOnElem ':' url.asStr.data).getLast? ≠ some "latest".data)
          && fs.fileExists dest
      else fs.fileExists dest) = true →
      (fetch_policy_after_resolve fs fetchResult url store dest).result = .ok dest ∧
      (fetch_policy_after_resolve fs fetchResult url store dest).fetched = false) ∧
    ((if url.scheme = "registry" then
        decide ((splitOnElem ':' url.asStr.data).getLast? ≠ some "latest".data)
          && fs.fileExists dest
      else fs.fileExists dest) = false → ∀ k, url_fetcher url.scheme = .ok k →
      (fetch_policy_after_resolve fs fetchResult url store dest).fetched = true) := by
  rcases store with _ | st
  · constructor
    · intro hcond
      simp only [fetch_policy_after_resolve]
      rw [hcond]
      simp
    · intro hcond k hk
      simp only [fetch_policy_after_resolve]
      rw [hcond, hk]
      simp only [Bool.false_eq_true, if_false]
      cases fetchResult <;> simp
  · have hp := pull_destination_store_parent defaultRoot fs url destination st dest hpd
    constructor
    · intro hcond
      simp only [fetch_policy_after_resolve]
      rw [hp, hcond]
      simp
    · intro hcond k hk
      simp only [fetch_policy_after_resolve]
      rw [hp, hcond, hk]
      simp only [Bool.false_eq_true, if_false]
      cases fetchResult <;> simp

theorem stripLeadingSlash_append (pre tag : String) (hne : pre.data ≠ []) :
    stripLeadingSlash (pre ++ tag) = stripLeadingSlash pre ++ tag := by
  unfold stripLeadingSlash
  rcases hd : pre.data with _ | ⟨x, rest⟩
  · exact absurd hd hne
  · have hdat : (pre ++ tag).data = x :: (rest ++ tag.data) := by
      rw [String.data_append, hd]
      rfl
    rw [hdat]
    dsimp only
    by_cases hx : x = '/'
    · rw [if_pos hx, if_pos hx]
      rfl
    · rw [if_neg hx, if_neg hx]

/-! ### Claim theorems -/

/-- C6: `fetch_policy` classifies by scheme — a `file` URI is converted
directly to a filesystem path and returned immediately, with no store
interaction and no fetch; `http`, `https` and `registry` proceed to the
resolved pipeline; any other scheme fails with an unsupported-scheme
error before any store interaction or fetch. -/
theorem scheme_classification (defaultRoot : String) (fs : FileSystem)
    (fetchResult : Except String Unit) (url : Url) (destination : PullDestination) :
    (url.scheme = "file" →
      fetch_policy defaultRoot fs fetchResult url destination =
        { result := url.toFilePath, fetched := false, ensured := none }) ∧
    (url.scheme = "http" ∨ url.scheme = "https" ∨ url.scheme = "registry" →
      fetch_policy defaultRoot fs fetchResult url destination =
        fetch_policy_resolved defaultRoot fs fetchResult url destination) ∧
    (url.scheme ≠ "file" → url.scheme ≠ "http" → url.scheme ≠ "https" →
      url.scheme ≠ "registry" →
      fetch_policy defaultRoot fs fetchResult url destination =
        { result := .error ("unknown scheme: " ++ url.scheme), fetched := false,
          ensured := none }) := by
  refine ⟨fun hf => ?_, fun hs => ?_, fun h1 h2 h3 h4 => ?_⟩
  · unfold fetch_policy
    rw [if_pos hf]
  · unfold fetch_policy
    have hnf : ¬(url.scheme = "file") := by
      rcases hs with h | h | h <;> rw [h] <;> decide
    rw [if_neg hnf, if_pos hs]
  · unfold fetch_policy
    rw [if_neg h1, if_neg (fun hc => hc.elim h2 (fun hc2 => hc2.elim h3 h4))]

/-- C6 witness: an `ftp` URI is rejected with the unknown-scheme error,
no store interaction and no fetch. -/
theorem scheme_classification_witness :
    fetch_policy "root" ⟨fun _ => false, fun _ => false⟩ (.ok ())
        ⟨"ftp", some "h", none, "/p"⟩ .MainStore =
      { result := .error ("unknown scheme: " ++ "ftp"), fetched := false, ensured := none } :=
  (scheme_classification "root" ⟨fun _ => false, fun _ => false⟩ (.ok ())
    ⟨"ftp", some "h", none, "/p"⟩ .MainStore).2.2
    (by decide) (by decide) (by decide) (by decide)

/-- C7: under `LocalFile(path)`, `pull_destination` returns no store
handle; the final path is `path` joined with the last `/`-delimited
segment of the URI's path when `path` is an existing directory, and is
`path` itself verbatim otherwise. -/
theorem local_file_destination (defaultRoot : String) (fs : FileSystem) (url : Url)
    (path : String) :
    (∀ seg, fs.isDir path = true →
      (splitOnElem '/' url.path.data).getLast? = some seg →
      pull_destination defaultRoot fs url (.LocalFile path) =
        .ok (none, joinPath path (String.mk seg))) ∧
    (fs.isDir path = false →
      pull_destination defaultRoot fs url (.LocalFile path) = .ok (none, path)) := by
  constructor
  · intro seg hd hg
    simp only [pull_destination]
    rw [if_pos hd, hg]
  · intro hd
    simp only [pull_destination]
    rw [if_neg (by rw [hd]; decide)]

/-- C7 witness: an existing-directory target appends the URI's filename;
a non-directory target is returned verbatim. -/
theorem local_file_destination_witness :
    pull_destination "root" ⟨fun _ => true, fun _ => false⟩
        ⟨"https", some "host.example.com", some 1234, "/path/to/policy.wasm"⟩
        (.LocalFile "cwd") = .ok (none, joinPath "cwd" (String.mk "policy.wasm".data)) :=
  (local_file_destination "root" ⟨fun _ => true, fun _ => false⟩
    ⟨"https", some "host.example.com", some 1234, "/path/to/policy.wasm"⟩ "cwd").1
    "policy.wasm".data rfl (by decide)

/-- C10: a URI path with an empty final segment (ending in `/`) under a
`LocalFile` directory target still resolves successfully — the
last-segment extraction yields the empty segment, so the result is the
directory joined with an empty filename, not a panic or an error. -/
theorem local_file_empty_segment (defaultRoot : String) (fs : FileSystem) (url : Url)
    (dir q : String) (hdir : fs.isDir dir = true) (hpath : url.path.data = q.data ++ ['/']) :
    pull_destination defaultRoot fs url (.LocalFile dir) =
      .ok (none, joinPath dir "") := by
  simp only [pull_destination]
  rw [if_pos hdir, hpath]
  have hlast : (splitOnElem '/' (q.data ++ ['/'])).getLast? = some [] := by
    have := getLast?_splitOnElem_tag '/' q.data ([] : List Char) (by simp)
    simpa using this
  rw [hlast]

/-- C3: for an `http`/`https` URI whose resolved destination path already
holds a file, `fetch_policy` returns that path without invoking the
fetcher — so a second call with the same URI and an already-populated
destination performs no fetch. -/
theorem http_existing_destination_reused (defaultRoot : String) (fs : FileSystem)
    (fetchResult : Except String Unit) (url : Url) (destination : PullDestination)
    (store : Option Store) (dest : String)
    (hscheme : url.scheme = "http" ∨ url.scheme = "https")
    (hpd : pull_destination defaultRoot fs url destination = .ok (store, dest))
    (hexists : fs.fileExists dest = true) :
    (fetch_policy defaultRoot fs fetchResult url destination).result = .ok dest ∧
    (fetch_policy defaultRoot fs fetchResult url destination).fetched = false := by
  have hcls := fetch_policy_proceeds defaultRoot fs fetchResult url destination
    (by rcases hscheme with hh | hh
        · exact .inl hh
        · exact .inr (.inl hh))
  have heq := fetch_policy_resolved_eq defaultRoot fs fetchResult url destination store dest hpd
  have hreg : ¬(url.scheme = "registry") := by
    rcases hscheme with hh | hh <;> rw [hh] <;> decide
  have hcond : (if url.scheme = "registry" then
      decide ((splitOnElem ':' url.asStr.data).getLast? ≠ some "latest".data)
        && fs.fileExists dest
    else fs.fileExists dest) = true := by
    rw [if_neg hreg]
    exact hexists
  rw [hcls, heq]
  exact (after_resolve_eval defaultRoot fs fetchResult url destination store dest hpd).1 hcond

/-- C3 witness: re-requesting `https://h/p.wasm` into an existing local
file returns the path with no fetch. -/
theorem http_existing_destination_reused_witness :
    (fetch_policy "root" ⟨fun _ => false, fun _ => true⟩ (.ok ())
        ⟨"https", some "h", none, "/p.wasm"⟩ (.LocalFile "out")).result = .ok "out" ∧
    (fetch_policy "root" ⟨fun _ => false, fun _ => true⟩ (.ok ())
        ⟨"https", some "h", none, "/p.wasm"⟩ (.LocalFile "out")).fetched = false :=
  http_existing_destination_reused "root" ⟨fun _ => false, fun _ => true⟩ (.ok ())
    ⟨"https", some "h", none, "/p.wasm"⟩ (.LocalFile "out") none "out"
    (.inr rfl) rfl rfl

/-- C1: under `Store(root)` and `MainStore`, the resolved destination is
`root/<scheme>/<host>[:<port>]/<uri-path-without-leading-slash>`: the
scheme segment verbatim, the port present exactly when explicit in the
URI, and any suffix of the URI's path — in particular a registry `:tag` —
kept verbatim at the end of the resulting path. -/
theorem store_path_mapping (defaultRoot root : String) (fs : FileSystem) (url : Url)
    (h : String) (hhost : url.host = some h)
    (_hscheme : url.scheme = "http" ∨ url.scheme = "https" ∨ url.scheme = "registry") :
    pull_destination defaultRoot fs url (.Store root) =
      .ok (some ⟨root⟩,
        root ++ "/" ++ url.scheme ++ "/" ++ h ++ url.portStr ++ "/" ++
          stripLeadingSlash url.path) ∧
    pull_destination defaultRoot fs url .MainStore =
      .ok (some ⟨defaultRoot⟩,
        defaultRoot ++ "/" ++ url.scheme ++ "/" ++ h ++ url.portStr ++ "/" ++
          stripLeadingSlash url.path) ∧
    (∀ pre tag : String, url.path = pre ++ tag → pre.data ≠ [] →
      ∃ q : String,
        root ++ "/" ++ url.scheme ++ "/" ++ h ++ url.portStr ++ "/" ++
          stripLeadingSlash url.path = q ++ tag) := by
  have hfull : ∀ r : String, Store.policy_full_path ⟨r⟩ url .PrefixAndFilename =
      .ok (r ++ "/" ++ url.scheme ++ "/" ++ h ++ url.portStr ++ "/" ++
        stripLeadingSlash url.path) := by
    intro r
    unfold Store.policy_full_path host_and_port
    rw [hhost]
    dsimp only
    congr 1
    apply String.ext
    simp [String.data_append, List.append_assoc]
  refine ⟨?_, ?_, ?_⟩
  · simp only [pull_destination]
    rw [hfull root]
  · simp only [pull_destination]
    rw [hfull defaultRoot]
  · intro pre tag hpath hne
    refine ⟨root ++ "/" ++ url.scheme ++ "/" ++ h ++ url.portStr ++ "/" ++
      stripLeadingSlash pre, ?_⟩
    rw [hpath, stripLeadingSlash_append pre tag hne, ← String.append_assoc]

/-- C1 witness: a registry URI with an explicit port and a `:tag` maps to
`r/registry/host.example.com:1234/path/to/policy:tag`. -/
theorem store_path_mapping_witness :
    pull_destination "d" ⟨fun _ => false, fun _ => false⟩
        ⟨"registry", some "host.example.com", some 1234, "/path/to/policy:tag"⟩
        (.Store "r") =
      .ok (some ⟨"r"⟩, "r" ++ "/" ++ "registry" ++ "/" ++ "host.example.com" ++
        (Url.mk "registry" (some "host.example.com") (some 1234)
          "/path/to/policy:tag").portStr ++ "/" ++
        stripLeadingSlash "/path/to/policy:tag") :=
  (store_path_mapping "d" "r" ⟨fun _ => false, fun _ => false⟩
    ⟨"registry", some "host.example.com", some 1234, "/path/to/policy:tag"⟩
    "host.example.com" rfl (.inr (.inr rfl))).1

theorem asStr_tag_split (url : Url) (base tag : String)
    (hpath : url.path = base ++ ":" ++ tag) (htag : ':' ∉ tag.data) :
    (splitOnElem ':' url.asStr.data).getLast? = some tag.data := by
  have c2 : ((":" : String)).data = [':'] := rfl
  have hd : url.asStr.data =
      (url.scheme ++ "://" ++ url.hostStr ++ url.portStr ++ base).data ++ ':' :: tag.data := by
    unfold Url.asStr
    rw [hpath]
    simp [String.data_append, List.append_assoc, c2]
  rw [hd]
  exact getLast?_splitOnElem_tag ':' _ _ htag

theorem asStr_untagged (url : Url) (hscheme : url.scheme = "registry")
    (hpath : ':' ∉ url.path.data) (hhost : ':' ∉ url.hostStr.data)
    (hslash : url.path.data.head? = some '/') :
    ∃ m, (splitOnElem ':' url.asStr.data).getLast? = some m ∧ m ≠ "latest".data := by
  rcases hp : url.port with _ | p
  · refine ⟨'/' :: '/' :: (url.hostStr.data ++ url.path.data), ?_, ?_⟩
    · have c1 : ("://" : String).data = [':', '/', '/'] := rfl
      have c3 : (("" : String)).data = ([] : List Char) := rfl
      have hd : url.asStr.data =
          "registry".data ++ ':' :: ('/' :: '/' :: (url.hostStr.data ++ url.path.data)) := by
        unfold Url.asStr Url.portStr
        rw [hscheme, hp]
        simp [String.data_append, List.append_assoc, c1, c3]
      rw [hd]
      apply getLast?_splitOnElem_tag
      simp only [List.mem_cons, not_or]
      refine ⟨by decide, by decide, ?_⟩
      intro hmem
      rcases List.mem_append.mp hmem with hm | hm
      · exact hhost hm
      · exact hpath hm
    · intro hcon
      have hh2 := congrArg List.head? hcon
      simp only [List.head?_cons] at hh2
      exact absurd hh2 (by decide)
  · refine ⟨(Nat.repr p).data ++ url.path.data, ?_, ?_⟩
    · have c2 : ((":" : String)).data = [':'] := rfl
      have c5 : "registry".data ++ ("://" : String).data = ("registry://" : String).data := rfl
      have hd : url.asStr.data =
          ("registry://" ++ url.hostStr).data ++ ':' :: ((Nat.repr p).data ++ url.path.data) := by
        unfold Url.asStr Url.portStr
        rw [hscheme, hp]
        simp only [String.data_append, List.append_assoc, c2, ← c5]
        simp [List.append_assoc]
      rw [hd]
      apply getLast?_splitOnElem_tag
      intro hmem
      rcases List.mem_append.mp hmem with hm | hm
      · exact natRepr_no_colon p hm
      · exact hpath hm
    · intro hcon
      have hsl : '/' ∈ (Nat.repr p).data ++ url.path.data := by
        apply List.mem_append.mpr
        right
        rcases hq : url.path.data with _ | ⟨x, rest⟩
        · rw [hq] at hslash
          simp at hslash
        · rw [hq] at hslash
          simp only [List.head?_cons, Option.some.injEq] at hslash
          rw [hslash]
          simp
      rw [hcon] at hsl
      exact absurd hsl (by decide)

/-- C2: for a registry URI, `fetch_policy` inspects the trailing `:tag`
segment: tag `latest` always invokes the fetcher, even when a file
already exists at the destination; any other tag — or an untagged URI —
reuses an existing destination file and does not invoke the fetcher. -/
theorem registry_tag_policy (defaultRoot : String) (fs : FileSystem)
    (fetchResult : Except String Unit) (url : Url) (destination : PullDestination)
    (store : Option Store) (dest : String)
    (hscheme : url.scheme = "registry")
    (hpd : pull_destination defaultRoot fs url destination = .ok (store, dest)) :
    (∀ base tag : String, url.path = base ++ ":" ++ tag → ':' ∉ tag.data →
      ((tag = "latest" →
        (fetch_policy defaultRoot fs fetchResult url destination).fetched = true) ∧
       (tag ≠ "latest" → fs.fileExists dest = true →
        (fetch_policy defaultRoot fs fetchResult url destination).result = .ok dest ∧
        (fetch_policy defaultRoot fs fetchResult url destination).fetched = false))) ∧
    (':' ∉ url.path.data → ':' ∉ url.hostStr.data → url.path.data.head? = some '/' →
      fs.fileExists dest = true →
      (fetch_policy defaultRoot fs fetchResult url destination).result = .ok dest ∧
      (fetch_policy defaultRoot fs fetchResult url destination).fetched = false) := by
  have hcls := fetch_policy_proceeds defaultRoot fs fetchResult url destination
    (.inr (.inr hscheme))
  have heq := fetch_policy_resolved_eq defaultRoot fs fetchResult url destination
    store dest hpd
  have hev := after_resolve_eval defaultRoot fs fetchResult url destination store dest hpd
  constructor
  · intro base tag hpath htag
    have hlastEq := asStr_tag_split url base tag hpath htag
    constructor
    · intro hlatest
      subst hlatest
      have hcond : (if url.scheme = "registry" then
          decide ((splitOnElem ':' url.asStr.data).getLast? ≠ some "latest".data)
            && fs.fileExists dest
        else fs.fileExists dest) = false := by
        rw [if_pos hscheme, hlastEq]
        simp
      rw [hcls, heq]
      exact hev.2 hcond .Registry (by rw [hscheme]; rfl)
    · intro hne hex
      have hsome : some tag.data ≠ some "latest".data := by
        intro hcon
        apply hne
        apply String.ext
        simpa using hcon
      have hcond : (if url.scheme = "registry" then
          decide ((splitOnElem ':' url.asStr.data).getLast? ≠ some "latest".data)
            && fs.fileExists dest
        else fs.fileExists dest) = true := by
        rw [if_pos hscheme, hlastEq, hex]
        simp [hsome]
      rw [hcls, heq]
      exact hev.1 hcond
  · intro hp hh hs hex
    obtain ⟨m, hm, hmne⟩ := asStr_untagged url hscheme hp hh hs
    have hsome : some m ≠ some "latest".data := by
      intro hcon
      exact hmne (by simpa using hcon)
    have hcond : (if url.scheme = "registry" then
        decide ((splitOnElem ':' url.asStr.data).getLast? ≠ some "latest".data)
          && fs.fileExists dest
      else fs.fileExists dest) = true := by
      rw [if_pos hscheme, hm, hex]
      simp [hsome]
    rw [hcls, heq]
    exact hev.1 hcond

/-- C2 witness: `registry://h.example.com/p:latest` over an existing
destination file still invokes the fetcher. -/
theorem registry_tag_policy_witness :
    ((fetch_policy "root" ⟨fun _ => false, fun _ => true⟩ (.ok ())
        ⟨"registry", some "h.example.com", none, "/p:latest"⟩
        (.LocalFile "out")).fetched = true) :=
  (((registry_tag_policy "root" ⟨fun _ => false, fun _ => true⟩ (.ok ())
      ⟨"registry", some "h.example.com", none, "/p:latest"⟩ (.LocalFile "out")
      none "out" rfl rfl).1 "/p" "latest" rfl (by decide)).1) rfl

/-- C10 witness: `https://host/a/b/` under an existing directory target
resolves to the directory joined with the empty filename. -/
theorem local_file_empty_segment_witness :
    pull_destination "root" ⟨fun _ => true, fun _ => false⟩
        ⟨"https", some "host", none, "/a/b/"⟩ (.LocalFile "out") =
      .ok (none, joinPath "out" "") :=
  local_file_empty_segment "root" ⟨fun _ => true, fun _ => false⟩
    ⟨"https", some "host", none, "/a/b/"⟩ "out" "/a/b" rfl (by decide)

theorem tryFromRegistryAuthRaw_ok_iff (a : String) (un pw : List Nat) :
    tryFromRegistryAuthRaw ⟨some a⟩ = .ok (some (.BasicAuth un pw)) ↔
      b64Decode a = some (un ++ 58 :: pw) ∧ (58 : Nat) ∉ un ∧ (58 : Nat) ∉ pw := by
  unfold tryFromRegistryAuthRaw
  dsimp only
  constructor
  · intro h
    rcases hd : b64Decode a with _ | bytes
    · rw [hd] at h
      exact absurd h (by simp)
    · rw [hd] at h
      dsimp only at h
      rcases hsp : splitOnElem 58 bytes with _ | ⟨x, xs⟩
      · exact absurd hsp (splitOnElem_ne_nil _ _)
      · rcases xs with _ | ⟨y, ys⟩
        · rw [hsp] at h
          exact absurd h (by simp)
        · rcases ys with _ | ⟨z, zs⟩
          · rw [hsp] at h
            simp only [Except.ok.injEq, Option.some.injEq,
              RegistryAuth.BasicAuth.injEq] at h
            obtain ⟨hx, hy⟩ := h
            subst hx hy
            obtain ⟨hb, hcu, hcp⟩ := splitOnElem_eq_pair hsp
            exact ⟨by rw [hb], hcu, hcp⟩
          · rw [hsp] at h
            exact absurd h (by simp)
  · rintro ⟨hd, hcu, hcp⟩
    rw [hd]
    dsimp only
    rw [splitOnElem_pair 58 un pw hcu hcp]

/-- C4 (amended): document-level validation always succeeds, and the
validated auths keep exactly the host entries whose `auth` is present,
base64-decodes, and splits into exactly two parts on the `:` byte (that
is, the decoded bytes contain exactly one `:`); entries with an absent
`auth`, an undecodable `auth`, or any other number of `:` bytes are
dropped locally. -/
theorem docker_config_validation (entries : List (String × RegistryAuthRaw))
    (cs : Option String) :
    ∃ cfg : DockerConfig, tryFromDockerConfigRaw ⟨some entries, cs⟩ = .ok cfg ∧
      cfg.creds_store = cs ∧
      ∀ (host : String) (un pw : List Nat),
        ((host, RegistryAuth.BasicAuth un pw) ∈ cfg.auths ↔
          ∃ a : String, (host, RegistryAuthRaw.mk (some a)) ∈ entries ∧
            b64Decode a = some (un ++ 58 :: pw) ∧ (58 : Nat) ∉ un ∧ (58 : Nat) ∉ pw) := by
  refine ⟨_, rfl, rfl, ?_⟩
  intro host un pw
  rw [List.mem_filterMap]
  constructor
  · rintro ⟨⟨hostE, raw⟩, hmem, hf⟩
    rcases hraw : raw.auth with _ | a
    · have : raw = ⟨none⟩ := by cases raw; simp_all
      rw [this] at hf
      exact absurd hf (by simp [tryFromRegistryAuthRaw])
    · have hre : raw = ⟨some a⟩ := by cases raw; simp_all
      rw [hre] at hf hmem
      rcases ht : tryFromRegistryAuthRaw ⟨some a⟩ with e | ro
      · rw [ht] at hf
        exact absurd hf (by simp)
      · rw [ht] at hf
        rcases ro with _ | ra
        · exact absurd hf (by simp)
        · simp only [Option.map_some', Option.some.injEq, Prod.mk.injEq] at hf
          obtain ⟨hhost, hra⟩ := hf
          subst hhost
          rw [hra] at ht
          obtain ⟨hdec, hcu, hcp⟩ := (tryFromRegistryAuthRaw_ok_iff a un pw).mp ht
          exact ⟨a, hmem, hdec, hcu, hcp⟩
  · rintro ⟨a, hmem, hdec, hcu, hcp⟩
    refine ⟨(host, ⟨some a⟩), hmem, ?_⟩
    rw [(tryFromRegistryAuthRaw_ok_iff a un pw).mpr ⟨hdec, hcu, hcp⟩]
    rfl

/-- C4 witness: one entry with a valid base64 `username:password` and one
entry with no `auth` field — the validated config keeps exactly the
former. -/
theorem docker_config_validation_witness :
    ∃ cfg : DockerConfig,
      tryFromDockerConfigRaw ⟨some [("a.example.com", ⟨some "dXNlcm5hbWU6cGFzc3dvcmQ="⟩),
        ("b.example.com", ⟨none⟩)], none⟩ = .ok cfg ∧
      cfg.creds_store = none ∧
      ∀ (host : String) (un pw : List Nat),
        ((host, RegistryAuth.BasicAuth un pw) ∈ cfg.auths ↔
          ∃ a : String,
            (host, RegistryAuthRaw.mk (some a)) ∈
              [("a.example.com", RegistryAuthRaw.mk (some "dXNlcm5hbWU6cGFzc3dvcmQ=")),
                ("b.example.com", RegistryAuthRaw.mk none)] ∧
            b64Decode a = some (un ++ 58 :: pw) ∧ (58 : Nat) ∉ un ∧ (58 : Nat) ∉ pw) :=
  docker_config_validation
    [("a.example.com", ⟨some "dXNlcm5hbWU6cGFzc3dvcmQ="⟩), ("b.example.com", ⟨none⟩)] none

/-- C4 counterexample: the auth `dTpwOnE=` decodes to `u:p:q`, which
splits into exactly two parts on its first `:` byte (`u` and `p:q`), so
the claim counts the entry as well-formed and kept; the code demands
exactly one `:` byte overall and drops it, leaving the validated auths
empty. -/
theorem docker_config_first_colon_counterexample :
    b64Decode "dTpwOnE=" = some ([117] ++ 58 :: [112, 58, 113]) ∧
    (58 : Nat) ∉ [117] ∧
    tryFromDockerConfigRaw ⟨some [("h", ⟨some "dTpwOnE="⟩)], none⟩ =
      .ok ⟨[], none⟩ := by
  refine ⟨by decide, by decide, by rfl⟩

/-- C5 (amended): for username and password byte sequences that contain
no `:` byte, base64-encoding `username:password` and validating the
result yields a `BasicAuth` credential with the original bytes. -/
theorem basic_auth_roundtrip (un pw : List Nat)
    (hun : ∀ b ∈ un, b < 256) (hpw : ∀ b ∈ pw, b < 256)
    (hcu : (58 : Nat) ∉ un) (hcp : (58 : Nat) ∉ pw) :
    tryFromRegistryAuthRaw ⟨some (b64Encode (un ++ 58 :: pw))⟩ =
      .ok (some (.BasicAuth un pw)) := by
  rw [tryFromRegistryAuthRaw_ok_iff]
  refine ⟨?_, hcu, hcp⟩
  apply b64_roundtrip
  intro b hb
  rcases List.mem_append.mp hb with hm | hm
  · exact hun b hm
  · rcases List.mem_cons.mp hm with he | hm2
    · omega
    · exact hpw b hm2

/-- C5 witness: the bytes of `u:p` round-trip. -/
theorem basic_auth_roundtrip_witness :
    tryFromRegistryAuthRaw ⟨some (b64Encode ([117] ++ 58 :: [112]))⟩ =
      .ok (some (.BasicAuth [117] [112])) :=
  basic_auth_roundtrip [117] [112] (by decide) (by decide) (by decide) (by decide)

/-- C5 counterexample: username `u` with password `a:b` (which contains a
`:` byte) does not round-trip — the validator rejects the credential
instead of returning the original username and password. -/
theorem basic_auth_roundtrip_counterexample :
    tryFromRegistryAuthRaw ⟨some (b64Encode ([117] ++ 58 :: [97, 58, 98]))⟩ =
      .error "basic auth not in the form username:password" ∧
    tryFromRegistryAuthRaw ⟨some (b64Encode ([117] ++ 58 :: [97, 58, 98]))⟩ ≠
      .ok (some (.BasicAuth [117] [97, 58, 98])) := by
  have he : tryFromRegistryAuthRaw ⟨some (b64Encode ([117] ++ 58 :: [97, 58, 98]))⟩ =
      .error "basic auth not in the form username:password" := by rfl
  exact ⟨he, fun hcon => by rw [he] at hcon; exact Except.noConfusion hcon⟩

/-- C8: the credential-helper lookup spawns `docker-credential-<store>`
with argument `get` and the registry host written to its input; a
non-zero exit is a hard failure whose message carries the helper's
output text; on a zero exit the output is parsed for `Username` and
`Secret` — a parse failure is a hard failure, and success yields a
`BasicAuth` built from the two fields as bytes. -/
theorem credentials_helper_protocol
    (spawn : String → String → String → Option ProcOutput)
    (fromUtf8 : List Nat → Option String)
    (parseResponse : List Nat → Option CredentialsHelperResponse)
    (creds_store registry : String) (out : List Nat) :
    (∀ txt : String,
      spawn ("docker-credential-" ++ creds_store) "get" registry = some ⟨false, out⟩ →
      fromUtf8 out = some txt →
      get_auth_from_credentials_helper spawn fromUtf8 parseResponse creds_store registry =
        .error ("Error retrieving credentials from credential store: " ++ txt)) ∧
    (spawn ("docker-credential-" ++ creds_store) "get" registry = some ⟨true, out⟩ →
      parseResponse out = none →
      get_auth_from_credentials_helper spawn fromUtf8 parseResponse creds_store registry =
        .error "malformed credentials helper response") ∧
    (∀ u s : String,
      spawn ("docker-credential-" ++ creds_store) "get" registry = some ⟨true, out⟩ →
      parseResponse out = some ⟨u, s⟩ →
      get_auth_from_credentials_helper spawn fromUtf8 parseResponse creds_store registry =
        .ok (.BasicAuth (strBytes u) (strBytes s))) := by
  refine ⟨?_, ?_, ?_⟩
  · intro txt hsp hu
    unfold get_auth_from_credentials_helper
    rw [hsp]
    dsimp only
    rw [hu]
    rfl
  · intro hsp hpr
    unfold get_auth_from_credentials_helper
    rw [hsp]
    dsimp only
    rw [hpr]
    rfl
  · intro u s hsp hpr
    unfold get_auth_from_credentials_helper
    rw [hsp]
    dsimp only
    rw [hpr]
    rfl

/-- C8 witness: a failing helper surfaces its output text in the error. -/
theorem credentials_helper_protocol_witness :
    get_auth_from_credentials_helper (fun _ _ _ => some ⟨false, [98]⟩)
        (fun _ => some "boom") (fun _ => none) "desktop" "ghcr.io" =
      .error ("Error retrieving credentials from credential store: " ++ "boom") :=
  (credentials_helper_protocol (fun _ _ _ => some ⟨false, [98]⟩) (fun _ => some "boom")
    (fun _ => none) "desktop" "ghcr.io" [98]).1 "boom" rfl rfl

/-- C9: the auth lookup strips one leading `registry://` if present,
parses the remainder as an OCI image reference, and looks the
reference's registry host up in the validated auths mapping; a missing
entry is a successful no-credential result, a present entry returns its
credential, and only a malformed image reference makes the lookup fail. -/
theorem auth_lookup (parseReference : String → Except String OciReference)
    (config : DockerConfig) (image_url rest : String) :
    (rest.data.take 11 ≠ "registry://".data →
      DockerConfig.auth parseReference config ("registry://" ++ rest) =
        DockerConfig.auth parseReference config rest) ∧
    (∀ r : OciReference, parseReference (stripRegistryScheme image_url) = .ok r →
      config.auths.find? (fun e => e.1 = r.registry) = none →
      DockerConfig.auth parseReference config image_url = .ok none) ∧
    (∀ (r : OciReference) (entry : String × RegistryAuth),
      parseReference (stripRegistryScheme image_url) = .ok r →
      config.auths.find? (fun e => e.1 = r.registry) = some entry →
      DockerConfig.auth parseReference config image_url = .ok (some entry.2)) ∧
    (∀ e : String, parseReference (stripRegistryScheme image_url) = .error e →
      DockerConfig.auth parseReference config image_url = .error e) := by
  refine ⟨?_, ?_, ?_, ?_⟩
  · intro hne
    have hlen : ("registry://" : String).data.length = 11 := by decide
    have hstrip1 : stripRegistryScheme ("registry://" ++ rest) = rest := by
      unfold stripRegistryScheme
      rw [String.data_append]
      rw [if_pos (by rw [← hlen, List.take_left])]
      rw [← hlen, List.drop_left]
    have hstrip2 : stripRegistryScheme rest = rest := by
      unfold stripRegistryScheme
      rw [if_neg hne]
    unfold DockerConfig.auth
    rw [hstrip1, hstrip2]
  · intro r hpr hfind
    unfold DockerConfig.auth
    rw [hpr]
    dsimp only
    rw [hfind]
    rfl
  · intro r entry hpr hfind
    unfold DockerConfig.auth
    rw [hpr]
    dsimp only
    rw [hfind]
    rfl
  · intro e hpr
    unfold DockerConfig.auth
    rw [hpr]

/-- C9 witness: a host absent from the auths mapping yields a successful
no-credential result. -/
theorem auth_lookup_witness :
    DockerConfig.auth (fun s => .ok ⟨s⟩) ⟨[], none⟩ "ghcr.io/x" = .ok none :=
  (auth_lookup (fun s => .ok ⟨s⟩) ⟨[], none⟩ "ghcr.io/x" "unused").2.1
    ⟨"ghcr.io/x"⟩ rfl rfl

end PolicyFetcher
